import Mathlib

/-!
Verification of the touch/pinch contact-tracking logic of
`Source/MixedRealityTools/Private/TouchPointer.cpp` and the distance-clamp
step of the follow behaviour declared in
`MRU_Game/Plugins/MixedRealityUtils/Source/MixedRealityUtils/Public/FollowComponent.h`.

The scene graph is modelled by a `World`: each node is a natural number,
`parent` is the attachment-parent primitive (`USceneComponent::GetAttachParent`),
`impl` is the capability test (`ImplementsTargetInterface`), and `alive`
tells whether a weak handle (`TWeakObjectPtr::Get`) still resolves.
Acyclicity of the attachment hierarchy is captured by requiring parents to
have strictly smaller ids, which also makes the parent walks terminate.

Event delivery is modelled as a trace: each emitted notification is paired
with a snapshot of the pointer state at the moment the callback runs, so
that claims about what a handler can observe (e.g. membership queries made
from inside a touch-start handler) are expressible.
-/

namespace TouchPointer

/-- The external scene-graph services consumed by `UTouchPointer`. -/
structure World where
  parent : Nat → Option Nat
  impl : Nat → Bool
  alive : Nat → Bool
  parent_lt : ∀ n p, parent n = some p → p < n

/-- Notifications delivered through the `ITouchPointerTarget` interface. -/
inductive Event where
  | touchStarted (t : Nat)
  | touchEnded (t : Nat)
  | pinchStarted (t : Nat)
  | pinchEnded (t : Nat)
deriving DecidableEq, Repr

/-- The mutable state of one `UTouchPointer`: the `TouchedTargets` set
(kept as a list in insertion order, as `TSet` iteration visits it),
the `bIsPinched` flag and the `TouchRadius`. -/
structure PState where
  touched : List Nat
  isPinched : Bool
  touchRadius : ℚ
deriving DecidableEq, Repr

/-- `TSet::Add`: inserting an element already present leaves the set
unchanged; a new element is appended. -/
def setAdd (l : List Nat) (x : Nat) : List Nat :=
  if x ∈ l then l else l ++ [x]

/-- `TSet::Remove`: returns the updated set and the number of elements
removed (`0` or `1`). -/
def setRemove (l : List Nat) (x : Nat) : List Nat × Nat :=
  if x ∈ l then (l.erase x, 1) else (l, 0)

/-- The attachment chain of a node: the node itself followed by its
ancestors, exactly the sequence of values taken by `comp` in the
`while (comp) { ...; comp = comp->GetAttachParent(); }` loops. -/
def chain (w : World) (n : Nat) : List Nat :=
  n ::
    match h : w.parent n with
    | some p => chain w p
    | none => []
termination_by n
decreasing_by exact w.parent_lt n p h

/-- The nearest ancestor (the node itself included) implementing the
target capability: the first implementing node on the attachment chain. -/
def findTarget (w : World) (n : Nat) : Option Nat :=
  (chain w n).find? w.impl

/-- `UTouchPointer::TryStartTouching`, walking the attachment chain given
as a list.  On the first implementing node: emit `TouchStarted` (before the
target is added to `TouchedTargets`), add it, then emit `PinchStarted` if
`bIsPinched`; return `true`.  If the chain ends, return `false`. -/
def tryStartAux (w : World) (s : PState) : List Nat → PState × List (Event × PState) × Bool
  | [] => (s, [], false)
  | c :: rest =>
    if w.impl c then
      let s1 : PState := { s with touched := setAdd s.touched c }
      (s1,
       (Event.touchStarted c, s) ::
         (if s.isPinched then [(Event.pinchStarted c, s1)] else []),
       true)
    else
      tryStartAux w s rest

/-- `UTouchPointer::TryStartTouching(comp)`. -/
def tryStartTouching (w : World) (s : PState) (n : Nat) :
    PState × List (Event × PState) × Bool :=
  tryStartAux w s (chain w n)

/-- `UTouchPointer::TryStopTouching`, walking the attachment chain given as
a list.  At each node, `TouchedTargets.Remove` is attempted first; when it
removes something, events are emitted only if the node still implements the
target capability: `PinchEnded` (when `bIsPinched`) then `TouchEnded`, both
after the removal; return `true`.  If the chain ends, return `false`. -/
def tryStopAux (w : World) (s : PState) : List Nat → PState × List (Event × PState) × Bool
  | [] => (s, [], false)
  | c :: rest =>
    match setRemove s.touched c with
    | (l, k) =>
      if k > 0 then
        let s1 : PState := { s with touched := l }
        if w.impl c then
          (s1,
           (if s.isPinched then [(Event.pinchEnded c, s1)] else []) ++
             [(Event.touchEnded c, s1)],
           true)
        else
          (s1, [], true)
      else
        tryStopAux w s rest

/-- `UTouchPointer::TryStopTouching(comp)`. -/
def tryStopTouching (w : World) (s : PState) (n : Nat) :
    PState × List (Event × PState) × Bool :=
  tryStopAux w s (chain w n)

/-- `UTouchPointer::StopAllTouching`: for each entry of `TouchedTargets`
whose weak handle still resolves, emit `PinchEnded` (when `bIsPinched`)
then `TouchEnded`; dead entries are skipped; finally `TouchedTargets.Empty()`. -/
def stopAllTouching (w : World) (s : PState) : PState × List (Event × PState) :=
  ({ s with touched := [] },
   s.touched.flatMap fun t =>
     if w.alive t then
       (if s.isPinched then [(Event.pinchEnded t, s)] else []) ++
         [(Event.touchEnded t, s)]
     else [])

/-- `UTouchPointer::SetPinched(Enable)`: no-op when `bIsPinched == Enable`.
Otherwise, for each live touched target, the code runs
`if (Enable) { Execute_PinchStarted(...); } { Execute_PinchEnded(...); }` —
the second block is unconditional (there is no `else`), so `PinchEnded` is
emitted to every live target on both directions of the transition; then
`bIsPinched = Enable`. -/
def setPinched (w : World) (s : PState) (enable : Bool) : PState × List (Event × PState) :=
  if s.isPinched = enable then (s, [])
  else
    ({ s with isPinched := enable },
     s.touched.flatMap fun t =>
       if w.alive t then
         (if enable then [(Event.pinchStarted t, s)] else []) ++
           [(Event.pinchEnded t, s)]
       else [])

/-- `UTouchPointer::GetPinched`. -/
def getPinched (s : PState) : Bool :=
  s.isPinched

/-- `UTouchPointer::SetTouchRadius`. -/
def setTouchRadius (s : PState) (r : ℚ) : PState :=
  { s with touchRadius := r }

/-- The node an event was delivered to. -/
def eventTarget : Event → Nat
  | .touchStarted t => t
  | .touchEnded t => t
  | .pinchStarted t => t
  | .pinchEnded t => t

/-- The whole-program state: the process-wide `UTouchPointer::Pointers`
registry (a `TArray` of pointers, in insertion order) together with the
state of every pointer, indexed by pointer id. -/
structure System where
  registry : List Nat
  pstates : Nat → PState

/-- The operations through which the host mutates pointer state:
`BeginPlay`, `EndPlay`, the two overlap handlers (which forward to
`TryStartTouching` / `TryStopTouching`), `SetPinched` and `SetTouchRadius`. -/
inductive Op where
  | beginPlay (pid : Nat)
  | endPlay (pid : Nat)
  | overlapBegin (pid : Nat) (n : Nat)
  | overlapEnd (pid : Nat) (n : Nat)
  | setPinch (pid : Nat) (enable : Bool)
  | setRadius (pid : Nat) (r : ℚ)
deriving DecidableEq

/-- One operation applied to the whole-program state.  `BeginPlay` appends
the pointer to the registry (`Pointers.Add(this)`); `EndPlay` first runs
`StopAllTouching` and then removes every occurrence of the pointer from
the registry (`TArray::Remove`); the remaining operations never touch the
registry. -/
def step (w : World) (sys : System) : Op → System
  | .beginPlay pid =>
    { sys with registry := sys.registry ++ [pid] }
  | .endPlay pid =>
    { registry := sys.registry.filter (fun q => q != pid),
      pstates := Function.update sys.pstates pid (stopAllTouching w (sys.pstates pid)).1 }
  | .overlapBegin pid n =>
    { sys with
      pstates := Function.update sys.pstates pid (tryStartTouching w (sys.pstates pid) n).1 }
  | .overlapEnd pid n =>
    { sys with
      pstates := Function.update sys.pstates pid (tryStopTouching w (sys.pstates pid) n).1 }
  | .setPinch pid b =>
    { sys with
      pstates := Function.update sys.pstates pid (setPinched w (sys.pstates pid) b).1 }
  | .setRadius pid r =>
    { sys with
      pstates := Function.update sys.pstates pid (setTouchRadius (sys.pstates pid) r) }

/-- `UTouchPointer::GetAllPointers`: returns the registry. -/
def getAllPointers (sys : System) : List Nat :=
  sys.registry

/-- A run of operations applied in order. -/
def runOps (w : World) (sys : System) : List Op → System
  | [] => sys
  | op :: rest => runOps w (step w sys op) rest

/-- Whether a pointer is active (activated and not deactivated since) at
the end of a run of operations, given its initial activation status. -/
def activeAfter : List Op → Nat → Bool → Bool
  | [], _, init => init
  | op :: rest, pid, init =>
    activeAfter rest pid
      (match op with
       | .beginPlay q => if q = pid then true else init
       | .endPlay q => if q = pid then false else init
       | _ => init)

/-- A gap-free alternating sequence of `k` overlap-begin / overlap-end
pairs on the same node `n`, collecting all emitted events. -/
def beginEndSeq (w : World) (s : PState) (n : Nat) : Nat → PState × List (Event × PState)
  | 0 => (s, [])
  | k + 1 =>
    let r1 := tryStartTouching w s n
    let r2 := tryStopTouching w r1.1 n
    let r3 := beginEndSeq w r2.1 n k
    (r3.1, r1.2.1 ++ r2.2.1 ++ r3.2)

/-- Number of events in a trace satisfying a predicate. -/
def countT (p : Event → Bool) (tr : List Event) : Nat :=
  (tr.filter p).length

def isTouchStart : Event → Bool
  | .touchStarted _ => true
  | _ => false

def isTouchEnd : Event → Bool
  | .touchEnded _ => true
  | _ => false

/-- The sub-trace of events delivered to a given target. -/
def eventsFor (t : Nat) (tr : List Event) : List Event :=
  tr.filter (fun e => eventTarget e == t)

/-- A one-node world: node 5 implements the target capability, every node
is a root, and all weak handles resolve. -/
def wFlat : World where
  parent := fun _ => none
  impl := fun n => n == 5
  alive := fun _ => true
  parent_lt := by
    intro n p h
    simp at h

/-- A three-level hierarchy 5 → 3 → 1: the leaf 5 does not implement the
capability, its ancestors 3 and 1 do, and node 9 is destroyed. -/
def wEx : World where
  parent := fun n => if n = 5 then some 3 else if n = 3 then some 1 else none
  impl := fun n => n == 3 || n == 1
  alive := fun n => n != 9
  parent_lt := by
    intro n p h
    by_cases h5 : n = 5
    · subst h5
      simp at h
      omega
    · by_cases h3 : n = 3
      · subst h3
        simp at h
        omega
      · simp [h5, h3] at h

/-- A pointer state with nothing touched. -/
def st0 : PState :=
  ⟨[], false, 0⟩

/-- A pointer state already touching node 5, not pinching. -/
def stT5 : PState :=
  ⟨[5], false, 0⟩

/-- A pinching pointer state touching the live target 3 and the destroyed
target 9. -/
def stP : PState :=
  ⟨[3, 9], true, 0⟩

/-- A pinching pointer state touching only the live target 3. -/
def stP3 : PState :=
  ⟨[3], true, 0⟩

end TouchPointer

/-- Modelled from the spec: the distance-clamp step of the FollowSolver.
`FollowComponent.h` only declares the `MinimumDistance` / `MaximumDistance`
parameters; the implementing translation unit is not among the sources, so
the step follows the spec's words: "If below `MinimumDistance` or above
`MaximumDistance`, clamp to the nearest bound; otherwise leave unchanged." -/
def Follow.distanceClamp (minimumDistance maximumDistance d : ℚ) : ℚ :=
  if d < minimumDistance then minimumDistance
  else if maximumDistance < d then maximumDistance
  else d

namespace TouchPointer

theorem setAdd_of_mem {l : List Nat} {x : Nat} (h : x ∈ l) : setAdd l x = l := by
  simp [setAdd, h]

theorem setAdd_of_not_mem {l : List Nat} {x : Nat} (h : x ∉ l) :
    setAdd l x = l ++ [x] := by
  simp [setAdd, h]

theorem chain_parent_none (w : World) (n : Nat) (h : w.parent n = none) :
    chain w n = [n] := by
  rw [chain]
  split <;> simp_all

theorem chain_parent_some (w : World) (n p : Nat) (h : w.parent n = some p) :
    chain w n = n :: chain w p := by
  rw [chain]
  split <;> simp_all

theorem mem_chain_self (w : World) (n : Nat) : n ∈ chain w n := by
  cases h : w.parent n with
  | none => rw [chain_parent_none w n h]; exact List.mem_cons_self _ _
  | some p => rw [chain_parent_some w n p h]; exact List.mem_cons_self _ _

theorem tryStartAux_of_none (w : World) (s : PState) {l : List Nat}
    (h : l.find? w.impl = none) : tryStartAux w s l = (s, [], false) := by
  induction l with
  | nil => rfl
  | cons c rest ih =>
    rw [List.find?_eq_none] at h
    have hc : w.impl c = false := by
      simpa using h c (List.mem_cons_self _ _)
    have hrest : rest.find? w.impl = none := by
      rw [List.find?_eq_none]
      exact fun x hx => h x (List.mem_cons_of_mem _ hx)
    simp [tryStartAux, hc, ih hrest]

theorem tryStartAux_of_some (w : World) (s : PState) {l : List Nat} {t : Nat}
    (h : l.find? w.impl = some t) :
    tryStartAux w s l =
      ({ s with touched := setAdd s.touched t },
       (Event.touchStarted t, s) ::
         (if s.isPinched then
            [(Event.pinchStarted t, { s with touched := setAdd s.touched t })]
          else []),
       true) := by
  induction l with
  | nil => simp [List.find?] at h
  | cons c rest ih =>
    by_cases hc : w.impl c = true
    · rw [List.find?_cons_of_pos _ hc] at h
      injection h with h
      subst h
      simp [tryStartAux, hc]
    · rw [List.find?_cons_of_neg _ (by simpa using hc)] at h
      simp [tryStartAux, hc, ih h]

theorem tryStopAux_of_not_touched (w : World) (s : PState) {l : List Nat}
    (h : ∀ c ∈ l, c ∉ s.touched) : tryStopAux w s l = (s, [], false) := by
  induction l with
  | nil => rfl
  | cons c rest ih =>
    have hc : c ∉ s.touched := h c (List.mem_cons_self _ _)
    have hrest : ∀ x ∈ rest, x ∉ s.touched :=
      fun x hx => h x (List.mem_cons_of_mem _ hx)
    simp [tryStopAux, setRemove, hc, ih hrest]

theorem tryStopAux_of_first_touched (w : World) (s : PState) {l1 l2 : List Nat} {t : Nat}
    (h1 : ∀ c ∈ l1, c ∉ s.touched) (h2 : t ∈ s.touched) :
    tryStopAux w s (l1 ++ t :: l2) =
      if w.impl t then
        ({ s with touched := s.touched.erase t },
         (if s.isPinched then
            [(Event.pinchEnded t, { s with touched := s.touched.erase t })]
          else []) ++
           [(Event.touchEnded t, { s with touched := s.touched.erase t })],
         true)
      else
        ({ s with touched := s.touched.erase t }, [], true) := by
  induction l1 with
  | nil =>
    simp only [List.nil_append]
    by_cases hi : w.impl t = true <;>
      simp [tryStopAux, setRemove, h2, hi]
  | cons c rest ih =>
    have hc : c ∉ s.touched := h1 c (List.mem_cons_self _ _)
    have hrest : ∀ x ∈ rest, x ∉ s.touched :=
      fun x hx => h1 x (List.mem_cons_of_mem _ hx)
    simp only [List.cons_append]
    simp [tryStopAux, setRemove, hc, ih hrest]

theorem mem_setAdd_self (l : List Nat) (x : Nat) : x ∈ setAdd l x := by
  by_cases h : x ∈ l <;> simp [setAdd, h]

theorem chain_wFlat (n : Nat) : chain wFlat n = [n] :=
  chain_parent_none wFlat n rfl

theorem chain_wEx_5 : chain wEx 5 = [5, 3, 1] := by
  rw [chain_parent_some wEx 5 3 rfl, chain_parent_some wEx 3 1 rfl,
    chain_parent_none wEx 1 rfl]

theorem findTarget_wFlat_5 : findTarget wFlat 5 = some 5 := by
  show (chain wFlat 5).find? wFlat.impl = some 5
  rw [chain_wFlat]
  rfl

theorem findTarget_wEx_5 : findTarget wEx 5 = some 3 := by
  show (chain wEx 5).find? wEx.impl = some 3
  rw [chain_wEx_5]
  rfl

/-- C1: evaluation of the code at the failing input.  `SetPinched(true)` on
a pointer whose pinch flag is off and which touches the single live target
5 emits a pinch-start *and* a pinch-end (two events of different kinds)
instead of exactly one pinch-start: the pinch-end block runs
unconditionally because the `if (Enable)` has no `else`. -/
theorem C1_setPinched_enable_double_fires :
    (setPinched wFlat stT5 true).2.map Prod.fst =
      [Event.pinchStarted 5, Event.pinchEnded 5] ∧
    (setPinched wFlat stT5 true).1 = ⟨[5], true, 0⟩ ∧
    setPinched wFlat stT5 false = (stT5, []) := by
  refine ⟨rfl, rfl, rfl⟩

/-- C2: counterexample.  Node 5 is already in the touched set; a second
overlap-begin on it emits a second touch-start notification (the code never
tests membership before emitting), refuting the claimed silent no-op. -/
theorem C2_counterexample :
    (tryStartTouching wFlat stT5 5).2.1.map Prod.fst = [Event.touchStarted 5] ∧
    (tryStartTouching wFlat stT5 5).1 = stT5 := by
  unfold tryStartTouching
  rw [chain_wFlat]
  exact ⟨rfl, rfl⟩

/-- C2 (amended): invoking overlap-begin on a node whose nearest
target-implementing ancestor is already in the touched set leaves the
pointer state unchanged, but emits a second touch-start notification (plus
a pinch-start when pinching) and still reports success. -/
theorem C2_amended_duplicate_begin (w : World) (s : PState) (n t : Nat)
    (hf : findTarget w n = some t) (ht : t ∈ s.touched) :
    (tryStartTouching w s n).1 = s ∧
    (tryStartTouching w s n).2.1.map Prod.fst =
      Event.touchStarted t :: (if s.isPinched then [Event.pinchStarted t] else []) ∧
    (tryStartTouching w s n).2.2 = true := by
  have he : tryStartTouching w s n = tryStartAux w s (chain w n) := rfl
  rw [he, tryStartAux_of_some w s hf, setAdd_of_mem ht]
  refine ⟨rfl, ?_, rfl⟩
  cases s.isPinched <;> simp

/-- C2 witness: the amended statement applied to the one-node world. -/
theorem C2_amended_witness :
    (tryStartTouching wFlat stT5 5).1 = stT5 ∧
    (tryStartTouching wFlat stT5 5).2.1.map Prod.fst =
      Event.touchStarted 5 ::
        (if stT5.isPinched then [Event.pinchStarted 5] else []) ∧
    (tryStartTouching wFlat stT5 5).2.2 = true :=
  C2_amended_duplicate_begin wFlat stT5 5 5 findTarget_wFlat_5 (by simp [stT5])

/-- C4: overlap-end on a node none of whose attachment chain is in the
touched set is a silent no-op: it returns false, emits no notification and
leaves the pointer state unchanged. -/
theorem C4_overlap_end_no_match (w : World) (s : PState) (n : Nat)
    (h : ∀ c ∈ chain w n, c ∉ s.touched) :
    tryStopTouching w s n = (s, [], false) :=
  tryStopAux_of_not_touched w s h

/-- C4 witness: overlap-end with an empty touched set. -/
theorem C4_witness : tryStopTouching wFlat st0 5 = (st0, [], false) :=
  C4_overlap_end_no_match wFlat st0 5 (by simp [st0])

/-- C7: overlap-begin walks the attachment chain: when no node of the
chain implements the capability the operation returns false, emits nothing
and changes nothing; when a target is found it is the nearest implementing
ancestor (every chain node strictly before it fails the capability test),
it is the node added to the touched set, and the operation reports
success. -/
theorem C7_nearest_ancestor (w : World) (s : PState) (n : Nat) :
    (findTarget w n = none → tryStartTouching w s n = (s, [], false)) ∧
    (∀ t, findTarget w n = some t →
       w.impl t = true ∧
       (∃ l1 l2, chain w n = l1 ++ t :: l2 ∧ ∀ c ∈ l1, w.impl c = false) ∧
       (tryStartTouching w s n).1 = { s with touched := setAdd s.touched t } ∧
       (tryStartTouching w s n).2.2 = true) := by
  have he : tryStartTouching w s n = tryStartAux w s (chain w n) := rfl
  constructor
  · intro h
    rw [he]
    exact tryStartAux_of_none w s h
  · intro t h
    obtain ⟨hpt, l1, l2, hchain, hl1⟩ := List.find?_eq_some.mp h
    refine ⟨hpt, ⟨l1, l2, hchain, fun c hc => by simpa using hl1 c hc⟩, ?_, ?_⟩
    · rw [he, tryStartAux_of_some w s h]
    · rw [he, tryStartAux_of_some w s h]

/-- C7 witness: in the 5 → 3 → 1 hierarchy where 3 and 1 implement the
capability, overlap-begin on 5 registers the nearest ancestor 3. -/
theorem C7_witness :
    wEx.impl 3 = true ∧
    (∃ l1 l2, chain wEx 5 = l1 ++ 3 :: l2 ∧ ∀ c ∈ l1, wEx.impl c = false) ∧
    (tryStartTouching wEx st0 5).1 = { st0 with touched := setAdd st0.touched 3 } ∧
    (tryStartTouching wEx st0 5).2.2 = true :=
  (C7_nearest_ancestor wEx st0 5).2 3 findTarget_wEx_5

/-- C10: the touch-start notification is emitted with the pre-insertion
pointer state: at the moment the handler runs, the target is not yet in
the touched set (when it was not touched before), while after the call it
is. -/
theorem C10_touch_start_before_insert (w : World) (s : PState) (n t : Nat)
    (hf : findTarget w n = some t) :
    (tryStartTouching w s n).2.1.head? = some (Event.touchStarted t, s) ∧
    (t ∉ s.touched →
       ∀ e ∈ (tryStartTouching w s n).2.1, e.1 = Event.touchStarted t →
         t ∉ e.2.touched) ∧
    t ∈ (tryStartTouching w s n).1.touched := by
  have he : tryStartTouching w s n = tryStartAux w s (chain w n) := rfl
  rw [he, tryStartAux_of_some w s hf]
  refine ⟨rfl, ?_, mem_setAdd_self _ _⟩
  intro hns e hmem hfst
  rcases List.mem_cons.mp hmem with rfl | hmem'
  · simpa using hns
  · cases hp : s.isPinched
    · simp [hp] at hmem'
    · simp [hp] at hmem'
      rw [hmem'] at hfst
      simp at hfst

theorem countT_append (p : Event → Bool) (l1 l2 : List Event) :
    countT p (l1 ++ l2) = countT p l1 + countT p l2 := by
  simp [countT, List.filter_append]

theorem filter_flatMap_nil {α : Type} (l : List Nat) (f : Nat → List α) (p : α → Bool)
    (h : ∀ c ∈ l, (f c).filter p = []) : (l.flatMap f).filter p = [] := by
  induction l with
  | nil => rfl
  | cons c rest ih =>
    rw [List.flatMap_cons, List.filter_append, h c (List.mem_cons_self _ _),
      ih fun x hx => h x (List.mem_cons_of_mem _ hx)]
    rfl

theorem filter_flatMap_single {α : Type} (l : List Nat) (f : Nat → List α) (p : α → Bool)
    (t : Nat) (hnd : l.Nodup) (ht : t ∈ l)
    (hother : ∀ c, c ≠ t → (f c).filter p = [])
    (hself : (f t).filter p = f t) :
    (l.flatMap f).filter p = f t := by
  induction l with
  | nil => cases ht
  | cons c rest ih =>
    rw [List.flatMap_cons, List.filter_append]
    rcases List.mem_cons.mp ht with rfl | hmem
    · have hnotin : t ∉ rest := (List.nodup_cons.mp hnd).1
      rw [hself, filter_flatMap_nil rest f p fun x hx =>
        hother x fun hxt => hnotin (hxt ▸ hx)]
      simp
    · have hct : c ≠ t := fun hct => (List.nodup_cons.mp hnd).1 (hct ▸ hmem)
      rw [hother c hct, ih (List.nodup_cons.mp hnd).2 hmem]
      simp

theorem map_fst_endEvents (w : World) (s : PState) (l : List Nat) :
    (l.flatMap fun t =>
       if w.alive t then
         (if s.isPinched then [(Event.pinchEnded t, s)] else []) ++
           [(Event.touchEnded t, s)]
       else []).map Prod.fst =
      l.flatMap fun t =>
        if w.alive t then
          (if s.isPinched then [Event.pinchEnded t] else []) ++ [Event.touchEnded t]
        else [] := by
  induction l with
  | nil => rfl
  | cons c rest ih =>
    rw [List.flatMap_cons, List.flatMap_cons, List.map_append, ih]
    congr 1
    by_cases ha : w.alive c = true <;> by_cases hp : s.isPinched = true <;>
      simp [ha, hp]

theorem stopAllTouching_trace (w : World) (s : PState) :
    (stopAllTouching w s).2.map Prod.fst =
      s.touched.flatMap fun t =>
        if w.alive t then
          (if s.isPinched then [Event.pinchEnded t] else []) ++ [Event.touchEnded t]
        else [] :=
  map_fst_endEvents w s s.touched

theorem eventsFor_stopAllTouching (w : World) (s : PState) (t : Nat)
    (hnd : s.touched.Nodup) (ht : t ∈ s.touched) (ha : w.alive t = true) :
    eventsFor t ((stopAllTouching w s).2.map Prod.fst) =
      (if s.isPinched then [Event.pinchEnded t] else []) ++ [Event.touchEnded t] := by
  rw [stopAllTouching_trace]
  unfold eventsFor
  rw [filter_flatMap_single s.touched _ _ t hnd ht ?hother ?hself]
  · rw [ha]
    simp
  case hother =>
    intro c hct
    have hbeq : (c == t) = false := by simpa using hct
    by_cases hac : w.alive c = true <;> by_cases hp : s.isPinched = true <;>
      simp [hac, hp, eventTarget, hbeq]
  case hself =>
    by_cases hp : s.isPinched = true <;> simp [ha, hp, eventTarget]

theorem eventsFor_stopAllTouching_dead (w : World) (s : PState) (t : Nat)
    (ha : w.alive t = false) :
    eventsFor t ((stopAllTouching w s).2.map Prod.fst) = [] := by
  rw [stopAllTouching_trace]
  unfold eventsFor
  apply filter_flatMap_nil
  intro c hc
  by_cases hct : c = t
  · subst hct
    simp [ha]
  · have hbeq : (c == t) = false := by simpa using hct
    by_cases hac : w.alive c = true <;> by_cases hp : s.isPinched = true <;>
      simp [hac, hp, eventTarget, hbeq]

/-- C5: whenever a pinching pointer ends a touch on a live target — via
overlap-end removing it from the touched set, or via deactivation — the
target receives exactly one pinch-end followed by the touch-end, in that
order. -/
theorem C5_pinch_end_before_touch_end (w : World) (s : PState) (t n : Nat)
    (l1 l2 : List Nat) (hp : s.isPinched = true) :
    (chain w n = l1 ++ t :: l2 → (∀ c ∈ l1, c ∉ s.touched) → t ∈ s.touched →
       w.impl t = true →
       (tryStopTouching w s n).2.1.map Prod.fst =
         [Event.pinchEnded t, Event.touchEnded t]) ∧
    (s.touched.Nodup → t ∈ s.touched → w.alive t = true →
       eventsFor t ((stopAllTouching w s).2.map Prod.fst) =
         [Event.pinchEnded t, Event.touchEnded t]) := by
  constructor
  · intro hchain h1 h2 hi
    have he : tryStopTouching w s n = tryStopAux w s (chain w n) := rfl
    rw [he, hchain, tryStopAux_of_first_touched w s h1 h2]
    simp [hi, hp]
  · intro hnd ht ha
    rw [eventsFor_stopAllTouching w s t hnd ht ha, hp]
    simp

/-- C5 witness: ending a pinched touch of target 3 through overlap-end on
the leaf 5, and through deactivation with the dead target 9 alongside. -/
theorem C5_witness :
    (tryStopTouching wEx stP3 5).2.1.map Prod.fst =
      [Event.pinchEnded 3, Event.touchEnded 3] ∧
    eventsFor 3 ((stopAllTouching wEx stP).2.map Prod.fst) =
      [Event.pinchEnded 3, Event.touchEnded 3] :=
  ⟨(C5_pinch_end_before_touch_end wEx stP3 3 5 [5] [1] rfl).1 chain_wEx_5
      (by simp [stP3]) (by simp [stP3]) rfl,
   (C5_pinch_end_before_touch_end wEx stP 3 0 [] [] rfl).2
      (by simp [stP]) (by simp [stP]) rfl⟩

/-- C8: on deactivation, every live touched target receives pinch-end (when
pinching) then touch-end, destroyed targets receive nothing, no error is
raised, and afterwards the touched set is empty (both for
`StopAllTouching` itself and for the `EndPlay` step). -/
theorem C8_deactivation_lossy_cleanup (w : World) (s : PState)
    (hnd : s.touched.Nodup) :
    (stopAllTouching w s).1.touched = [] ∧
    (∀ t ∈ s.touched, w.alive t = true →
       eventsFor t ((stopAllTouching w s).2.map Prod.fst) =
         (if s.isPinched then [Event.pinchEnded t] else []) ++
           [Event.touchEnded t]) ∧
    (∀ t, w.alive t = false →
       eventsFor t ((stopAllTouching w s).2.map Prod.fst) = []) ∧
    (∀ sys pid, ((step w sys (Op.endPlay pid)).pstates pid).touched = []) := by
  refine ⟨rfl, fun t ht ha => eventsFor_stopAllTouching w s t hnd ht ha,
    fun t ha => eventsFor_stopAllTouching_dead w s t ha, fun sys pid => ?_⟩
  simp [step, Function.update_same, stopAllTouching]

/-- C8 witness: deactivating a pinching pointer touching the live target 3
and the destroyed target 9. -/
theorem C8_witness :
    (stopAllTouching wEx stP).1.touched = [] ∧
    (∀ t ∈ stP.touched, wEx.alive t = true →
       eventsFor t ((stopAllTouching wEx stP).2.map Prod.fst) =
         (if stP.isPinched then [Event.pinchEnded t] else []) ++
           [Event.touchEnded t]) ∧
    (∀ t, wEx.alive t = false →
       eventsFor t ((stopAllTouching wEx stP).2.map Prod.fst) = []) ∧
    (∀ sys pid, ((step wEx sys (Op.endPlay pid)).pstates pid).touched = []) :=
  C8_deactivation_lossy_cleanup wEx stP (by simp [stP])

theorem runOps_registry_mem (w : World) (ops : List Op) (pid : Nat) :
    ∀ (sys : System) (init : Bool), (init = true ↔ pid ∈ sys.registry) →
      (activeAfter ops pid init = true ↔ pid ∈ (runOps w sys ops).registry) := by
  induction ops with
  | nil =>
    intro sys init h
    simpa [runOps, activeAfter] using h
  | cons op rest ih =>
    intro sys init h
    simp only [runOps, activeAfter]
    apply ih
    cases op with
    | beginPlay q =>
      by_cases hq : q = pid
      · simp [step, hq]
      · simp only [step, List.mem_append, List.mem_singleton, if_neg hq]
        constructor
        · intro hi
          exact Or.inl (h.mp hi)
        · rintro (hm | hm)
          · exact h.mpr hm
          · exact absurd hm.symm hq
    | endPlay q =>
      by_cases hq : q = pid
      · subst hq
        simp [step, List.mem_filter]
      · simp only [step, List.mem_filter, if_neg hq, bne_iff_ne, ne_eq]
        constructor
        · intro hi
          exact ⟨h.mp hi, fun hm => hq hm.symm⟩
        · intro hm
          exact h.mpr hm.1
    | overlapBegin q m => simpa [step] using h
    | overlapEnd q m => simpa [step] using h
    | setPinch q b => simpa [step] using h
    | setRadius q r => simpa [step] using h

/-- C6: the registry is mutated only by activation (append) and
deactivation (remove); after any run of operations, get-all-pointers
contains exactly the pointers whose last activation/deactivation event is
an activation (or which started in the registry and saw neither). -/
theorem C6_registry_exactly_active (w : World) :
    (∀ sys pid n b r,
       (step w sys (Op.overlapBegin pid n)).registry = sys.registry ∧
       (step w sys (Op.overlapEnd pid n)).registry = sys.registry ∧
       (step w sys (Op.setPinch pid b)).registry = sys.registry ∧
       (step w sys (Op.setRadius pid r)).registry = sys.registry) ∧
    (∀ sys ops pid,
       pid ∈ getAllPointers (runOps w sys ops) ↔
         activeAfter ops pid (decide (pid ∈ sys.registry)) = true) := by
  refine ⟨fun sys pid n b r => ⟨rfl, rfl, rfl, rfl⟩, fun sys ops pid => ?_⟩
  exact (runOps_registry_mem w ops pid sys _ (by simp)).symm

theorem pstate_eta (s : PState) (b : Bool) (hb : s.isPinched = b) :
    ({ touched := s.touched, isPinched := b, touchRadius := s.touchRadius } : PState)
      = s := by
  rw [← hb]

theorem beginEnd_round (w : World) (s : PState) (n : Nat)
    (h : ∀ c ∈ chain w n, c ∉ s.touched) :
    (tryStopTouching w (tryStartTouching w s n).1 n).1 = s ∧
    countT isTouchStart ((tryStartTouching w s n).2.1.map Prod.fst) =
      countT isTouchEnd
        ((tryStopTouching w (tryStartTouching w s n).1 n).2.1.map Prod.fst) ∧
    countT isTouchEnd ((tryStartTouching w s n).2.1.map Prod.fst) = 0 ∧
    countT isTouchStart
      ((tryStopTouching w (tryStartTouching w s n).1 n).2.1.map Prod.fst) = 0 := by
  have he1 : ∀ s' : PState, tryStartTouching w s' n = tryStartAux w s' (chain w n) :=
    fun _ => rfl
  have he2 : ∀ s' : PState, tryStopTouching w s' n = tryStopAux w s' (chain w n) :=
    fun _ => rfl
  cases hf : findTarget w n with
  | none =>
    have hnone : ∀ c ∈ chain w n, w.impl c = false := by
      intro c hc
      simpa using List.find?_eq_none.mp hf c hc
    rw [he1 s, tryStartAux_of_none w s hf]
    rw [he2 _, tryStopAux_of_not_touched w _ h]
    simp [countT]
  | some t =>
    obtain ⟨hpt, l1, l2, hchain, hl1⟩ := List.find?_eq_some.mp hf
    have htmem : t ∈ chain w n := by
      rw [hchain]
      simp
    have htnot : t ∉ s.touched := h t htmem
    rw [he1 s, tryStartAux_of_some w s hf, setAdd_of_not_mem htnot]
    have hb : ∀ c ∈ l1,
        c ∉ (PState.mk (s.touched ++ [t]) s.isPinched s.touchRadius).touched := by
      intro c hc
      have hcchain : c ∈ chain w n := by
        rw [hchain]
        exact List.mem_append_left _ hc
      have hcs : c ∉ s.touched := h c hcchain
      have hct : c ≠ t := by
        intro hct
        have := hl1 c hc
        rw [hct, hpt] at this
        simp at this
      simp [hcs, hct]
    have ht1 : t ∈ (PState.mk (s.touched ++ [t]) s.isPinched s.touchRadius).touched := by
      simp
    rw [he2 _, hchain, tryStopAux_of_first_touched w _ hb ht1]
    have herase :
        (PState.mk (s.touched ++ [t]) s.isPinched s.touchRadius).touched.erase t =
          s.touched := by
      show (s.touched ++ [t]).erase t = s.touched
      rw [List.erase_append_right _ htnot, List.erase_cons_head, List.append_nil]
    cases hsp : s.isPinched <;>
      simp [hpt, hsp, herase, countT, isTouchStart, isTouchEnd, pstate_eta s _ hsp]

/-- C3: for any gap-free alternating sequence of overlap-begin/overlap-end
pairs on the same node, the pointer state (hence the touched-set size)
returns to its pre-sequence value and the number of touch-start
notifications equals the number of touch-end notifications. -/
theorem C3_touch_symmetry (w : World) (s : PState) (n k : Nat)
    (h : ∀ c ∈ chain w n, c ∉ s.touched) :
    (beginEndSeq w s n k).1 = s ∧
    countT isTouchStart ((beginEndSeq w s n k).2.map Prod.fst) =
      countT isTouchEnd ((beginEndSeq w s n k).2.map Prod.fst) := by
  induction k with
  | zero => simp [beginEndSeq, countT]
  | succ k ih =>
    obtain ⟨hst, hc1, hc2, hc3⟩ := beginEnd_round w s n h
    simp only [beginEndSeq]
    rw [hst]
    refine ⟨ih.1, ?_⟩
    rw [List.map_append, List.map_append, countT_append, countT_append,
      countT_append, countT_append]
    omega

/-- C3 witness: two begin/end rounds on node 5 starting untouched. -/
theorem C3_witness :
    (beginEndSeq wFlat st0 5 2).1 = st0 ∧
    countT isTouchStart ((beginEndSeq wFlat st0 5 2).2.map Prod.fst) =
      countT isTouchEnd ((beginEndSeq wFlat st0 5 2).2.map Prod.fst) :=
  C3_touch_symmetry wFlat st0 5 2 (by simp [chain_wFlat, st0])

/-- C10 witness: a fresh touch of node 5 in the one-node world. -/
theorem C10_witness :
    (tryStartTouching wFlat st0 5).2.1.head? = some (Event.touchStarted 5, st0) ∧
    (5 ∉ st0.touched →
       ∀ e ∈ (tryStartTouching wFlat st0 5).2.1, e.1 = Event.touchStarted 5 →
         5 ∉ e.2.touched) ∧
    5 ∈ (tryStartTouching wFlat st0 5).1.touched :=
  C10_touch_start_before_insert wFlat st0 5 5 findTarget_wFlat_5

end TouchPointer

/-- C9: for every tick with distance clamping enabled, the post-clamp
camera-to-goal distance lies within `[MinimumDistance, MaximumDistance]`,
and a distance already inside the bounds is left unchanged by the clamp. -/
theorem C9_distance_clamp_bounded (minimumDistance maximumDistance d : ℚ)
    (h : minimumDistance ≤ maximumDistance) :
    minimumDistance ≤ Follow.distanceClamp minimumDistance maximumDistance d ∧
    Follow.distanceClamp minimumDistance maximumDistance d ≤ maximumDistance ∧
    (minimumDistance ≤ d → d ≤ maximumDistance →
      Follow.distanceClamp minimumDistance maximumDistance d = d) := by
  unfold Follow.distanceClamp
  split_ifs with h1 h2
  · exact ⟨le_refl _, h, fun hmin _ => absurd h1 (not_lt.mpr hmin)⟩
  · exact ⟨h, le_refl _, fun _ hmax => absurd h2 (not_lt.mpr hmax)⟩
  · exact ⟨not_lt.mp h1, not_lt.mp h2, fun _ _ => rfl⟩

/-- C9 witness: the default configuration 50/100 with a measured distance
of 30 clamps into the bounds. -/
theorem C9_witness :
    ((50 : ℚ) ≤ Follow.distanceClamp 50 100 30 ∧
     Follow.distanceClamp 50 100 30 ≤ 100 ∧
     ((50 : ℚ) ≤ 30 → (30 : ℚ) ≤ 100 →
       Follow.distanceClamp 50 100 30 = 30)) ∧
    Follow.distanceClamp 50 100 30 = 50 :=
  ⟨C9_distance_clamp_bounded 50 100 30 (by norm_num), by norm_num [Follow.distanceClamp]⟩
